import Mathlib

/-!
Verification of the search logic of the vanity-address generator
(`vanity-generator.js`) against its design specification.

Strings are modelled as `List Char`, bytes as `Nat` values below 256, and
JavaScript numbers as exact rationals extended with infinity and NaN where
the distinction matters.  Each definition is a direct translation of the
corresponding JavaScript function; the theorems then relate those
translations to the properties stated in the specification.
-/

set_option linter.unusedVariables false

namespace Vanity

/-- Case-insensitive normalisation: JavaScript's `toLowerCase` / the `i`
regex flag, modelled by lowering every character. -/
def lowerList (s : List Char) : List Char := s.map Char.toLower

/-- Anchored literal prefix test: the semantics of `new RegExp("^" + pat)​.test s`
for a pattern `pat` containing no regex metacharacters (hex patterns never do). -/
def startsWithBool : List Char → List Char → Bool
  | [], _ => true
  | _ :: _, [] => false
  | p :: ps, c :: cs => p == c && startsWithBool ps cs

/-- Anchored literal end-of-string test: the semantics of
`new RegExp(pat + "$")​.test s` for a metacharacter-free pattern. -/
def endsWithBool (pat s : List Char) : Bool :=
  startsWithBool pat.reverse s.reverse

/-- Translation of `createMatcher(prefix, suffix)` from `vanity-generator.js`:
`prefixRegex = /^0x${prefix}/i`, `suffixRegex = suffix ? /${suffix}$/i : null`,
and the matcher returns `prefixRegex.test(address) && (!suffixRegex || suffixRegex.test(address))`.
The `i` flag is modelled by lowering both pattern and address. -/
def createMatcher (pre suf : List Char) : List Char → Bool :=
  fun address =>
    startsWithBool (lowerList ('0' :: 'x' :: pre)) (lowerList address) &&
    (if suf.isEmpty then true
     else endsWithBool (lowerList suf) (lowerList address))

/-- The character class of `validateHexString`'s regex `^[0-9a-fA-F]*$`. -/
def isHexChar (c : Char) : Bool :=
  (decide ('0' ≤ c) && decide (c ≤ '9')) ||
  (decide ('a' ≤ c) && decide (c ≤ 'f')) ||
  (decide ('A' ≤ c) && decide (c ≤ 'F'))

/-- The predicate `validateHexString` enforces: every character of the
string is a hexadecimal digit. -/
def isHexList (s : List Char) : Bool := s.all isHexChar

/-- Specification-side notion: the address starts, case-insensitively,
with the pattern. -/
def startsWithCI (pat s : List Char) : Prop :=
  ∃ t, lowerList s = lowerList pat ++ t

/-- Specification-side notion: the address ends, case-insensitively,
with the pattern. -/
def endsWithCI (pat s : List Char) : Prop :=
  ∃ t, lowerList s = t ++ lowerList pat

theorem startsWithBool_iff (pat s : List Char) :
    startsWithBool pat s = true ↔ ∃ t, s = pat ++ t := by
  induction pat generalizing s with
  | nil => simp [startsWithBool]
  | cons p ps ih =>
    cases s with
    | nil =>
      simp [startsWithBool]
    | cons c cs =>
      simp only [startsWithBool, Bool.and_eq_true, beq_iff_eq, ih,
        List.cons_append, List.cons.injEq]
      constructor
      · rintro ⟨rfl, t, rfl⟩
        exact ⟨t, rfl, rfl⟩
      · rintro ⟨t, rfl, rfl⟩
        exact ⟨rfl, t, rfl⟩

theorem endsWithBool_iff (pat s : List Char) :
    endsWithBool pat s = true ↔ ∃ t, s = t ++ pat := by
  unfold endsWithBool
  rw [startsWithBool_iff]
  constructor
  · rintro ⟨t, ht⟩
    refine ⟨t.reverse, ?_⟩
    have := congrArg List.reverse ht
    simpa using this
  · rintro ⟨t, rfl⟩
    exact ⟨t.reverse, by simp⟩

/-- C1. The matcher accepts an address iff, case-insensitively, the address
starts with `0x` followed by the prefix, and either the suffix is empty or
the address ends with the suffix — a plain boolean accept/reject for every
address string and hex prefix/suffix pair. -/
theorem createMatcher_accepts_iff (pre suf address : List Char)
    (hp : isHexList pre = true) (hs : isHexList suf = true) :
    createMatcher pre suf address = true ↔
      (startsWithCI ('0' :: 'x' :: pre) address ∧
        (suf = [] ∨ endsWithCI suf address)) := by
  unfold createMatcher startsWithCI endsWithCI
  rcases suf with _ | ⟨c, cs⟩
  · simp [startsWithBool_iff, lowerList]
  · simp only [List.isEmpty_cons, if_neg Bool.false_ne_true, Bool.and_eq_true,
      startsWithBool_iff, endsWithBool_iff]
    constructor
    · rintro ⟨h1, h2⟩
      exact ⟨h1, Or.inr h2⟩
    · rintro ⟨h1, h2 | h2⟩
      · exact absurd h2 (by simp)
      · exact ⟨h1, h2⟩

/-- Witness for C1 at the spec's own example: prefix `dead`, suffix `beef`,
address `0xdeadbeef`. -/
theorem createMatcher_accepts_iff_witness :
    isHexList "dead".toList = true ∧ isHexList "beef".toList = true ∧
      (createMatcher "dead".toList "beef".toList "0xdeadbeef".toList = true ↔
        (startsWithCI ('0' :: 'x' :: "dead".toList) "0xdeadbeef".toList ∧
          ("beef".toList = [] ∨ endsWithCI "beef".toList "0xdeadbeef".toList))) :=
  ⟨by decide, by decide,
    createMatcher_accepts_iff "dead".toList "beef".toList "0xdeadbeef".toList
      (by decide) (by decide)⟩

/-- Translation of `calculateProbability(prefix, suffix)`:
`Math.pow(16, prefix.length) * (suffix ? Math.pow(16, suffix.length) : 1)`.
All values are powers of two times each other, hence exact in IEEE doubles,
so `Nat` arithmetic is a faithful model. -/
def calculateProbability (pre suf : List Char) : Nat :=
  16 ^ pre.length * (if suf.isEmpty then 1 else 16 ^ suf.length)

/-- C2. The expected number of tries equals `16 ^ (len(prefix) + len(suffix))`
for every prefix and suffix; in particular `expectedTries("dead","beef") =
16 ^ 8 = 4294967296`, and an empty suffix contributes a factor of `1`. -/
theorem calculateProbability_eq_pow :
    (∀ pre suf : List Char,
        calculateProbability pre suf = 16 ^ (pre.length + suf.length)) ∧
      calculateProbability "dead".toList "beef".toList = 4294967296 ∧
      (∀ pre : List Char, calculateProbability pre [] = 16 ^ pre.length * 1) := by
  refine ⟨?_, by decide, ?_⟩
  · intro pre suf
    unfold calculateProbability
    rcases suf with _ | ⟨c, cs⟩
    · simp
    · simp [pow_add]
  · intro pre
    simp [calculateProbability]

/-- The coordinator state touched by the `found` branch of the main thread's
message handler: the found counter, the list of results written to the
output file, how many times the `🏆 Complete!` announcement has been
printed, and how many times the drain sequence (a `stop` broadcast followed
by the delayed terminate-and-exit) has been started. -/
structure CoordState (α : Type) where
  foundCount : Nat
  recorded : List α
  completeCount : Nat
  drainCount : Nat
deriving DecidableEq

/-- The coordinator state before any message arrives. -/
def initCoord (α : Type) : CoordState α := ⟨0, [], 0, 0⟩

/-- The `found` branch of `worker.on("message")`: increment `foundCount`,
append the result to the output file, and — whenever `foundCount >= walletCount`
holds — print the complete announcement and start the drain sequence.
The threshold test is re-evaluated on every message; there is no latch. -/
def onFound {α : Type} (walletCount : Nat) (st : CoordState α) (msg : α) :
    CoordState α :=
  let fc := st.foundCount + 1
  if walletCount ≤ fc then
    ⟨fc, st.recorded ++ [msg], st.completeCount + 1, st.drainCount + 1⟩
  else
    ⟨fc, st.recorded ++ [msg], st.completeCount, st.drainCount⟩

/-- C3, counterexample. With `walletCount = 1`, delivering a second `found`
message after the threshold is already met emits the complete announcement
and starts the drain sequence a second time (both counters reach 2), so the
claimed idempotent shutdown fails on the code. -/
theorem onFound_retriggers_counterexample :
    (onFound 1 (onFound 1 (initCoord Nat) 0) 1).completeCount = 2 ∧
      (onFound 1 (onFound 1 (initCoord Nat) 0) 1).drainCount = 2 ∧
      (onFound 1 (onFound 1 (initCoord Nat) 0) 1).recorded = [0, 1] := by
  decide

/-- C3, amended. Once `foundCount` has reached `walletCount`, every further
`found` message is still recorded, but it also re-runs the completion block:
the complete announcement is printed again and the drain sequence is started
again, because the handler re-tests `foundCount >= walletCount` with no latch. -/
theorem onFound_after_threshold {α : Type} (walletCount : Nat)
    (st : CoordState α) (msg : α) (h : walletCount ≤ st.foundCount) :
    onFound walletCount st msg =
      ⟨st.foundCount + 1, st.recorded ++ [msg],
        st.completeCount + 1, st.drainCount + 1⟩ := by
  unfold onFound
  rw [if_pos (le_trans h (Nat.le_succ _))]

/-- Witness for the amended C3: a state whose threshold (1) is already met
processes one more message and re-announces. -/
theorem onFound_after_threshold_witness :
    1 ≤ (CoordState.mk 1 [0] 1 1 : CoordState Nat).foundCount ∧
      onFound 1 (CoordState.mk 1 [0] 1 1 : CoordState Nat) 2 =
        ⟨2, [0, 2], 2, 2⟩ :=
  ⟨by decide, onFound_after_threshold 1 ⟨1, [0], 1, 1⟩ 2 (by decide)⟩

/-- A `progress` message: `{workerId, tries, rate}` (the fields the
aggregation uses; rates are modelled as exact rationals). -/
structure Snap where
  workerId : Nat
  tries : Nat
  rate : ℚ
deriving DecidableEq

/-- The assignment `stats[msg.workerId] = msg`: store the newest snapshot for a worker,
replacing any previous entry with the same key and otherwise adding a new
entry.  The JS object is modelled as an association list with unique keys. -/
def upsert : List (Nat × Snap) → Snap → List (Nat × Snap)
  | [], m => [(m.workerId, m)]
  | (k, v) :: rest, m =>
    if k = m.workerId then (k, m) :: rest else (k, v) :: upsert rest m

/-- The `stats` object after a sequence of progress messages, processed in
arrival order starting from the empty object. -/
def runAgg (ms : List Snap) : List (Nat × Snap) := ms.foldl upsert []

/-- The handler's loop `for (const w of Object.values(stats)) totalTries += w.tries`. -/
def totalTries (st : List (Nat × Snap)) : Nat :=
  (st.map (fun e => e.2.tries)).sum

/-- The handler's loop `totalRate += w.rate` over `Object.values(stats)`. -/
def totalRate (st : List (Nat × Snap)) : ℚ :=
  (st.map (fun e => e.2.rate)).sum

/-- Key lookup in the modelled `stats` object. -/
def lookupW : List (Nat × Snap) → Nat → Option Snap
  | [], _ => none
  | (k, v) :: rest, w => if k = w then some v else lookupW rest w

/-- The keys of the modelled `stats` object. -/
def keysOf (st : List (Nat × Snap)) : List Nat := st.map Prod.fst

/-- Specification-side notion: the most recent snapshot a given worker has
sent in a message sequence, if any. -/
def latestSnap (ms : List Snap) (w : Nat) : Option Snap :=
  (ms.filter (fun m => m.workerId == w)).getLast?

/-- The most recent try count reported by worker `w` (0 if it never reported). -/
def latestTries (ms : List Snap) (w : Nat) : Nat :=
  ((latestSnap ms w).map Snap.tries).getD 0

/-- The most recent rate reported by worker `w` (0 if it never reported). -/
def latestRate (ms : List Snap) (w : Nat) : ℚ :=
  ((latestSnap ms w).map Snap.rate).getD 0

/-- The set of workers that have reported at least once. -/
def reportedWorkers (ms : List Snap) : Finset Nat :=
  (ms.map Snap.workerId).toFinset

theorem lookupW_upsert (st : List (Nat × Snap)) (m : Snap) (w : Nat) :
    lookupW (upsert st m) w =
      if w = m.workerId then some m else lookupW st w := by
  induction st with
  | nil =>
    by_cases h : w = m.workerId
    · simp [upsert, lookupW, h]
    · simp [upsert, lookupW, h, Ne.symm h]
  | cons e rest ih =>
    obtain ⟨k, v⟩ := e
    by_cases hk : k = m.workerId
    · by_cases hw : w = m.workerId
      · simp [upsert, lookupW, hk, hw]
      · have hkw : k ≠ w := fun h => hw (h ▸ hk)
        simp [upsert, lookupW, hk, hw, hkw, Ne.symm hw]
    · by_cases hkw : k = w
      · have hw : w ≠ m.workerId := fun h => hk (hkw.trans h)
        simp [upsert, lookupW, hk, hkw, hw]
      · simp [upsert, lookupW, hk, hkw, ih]

theorem keysOf_upsert (st : List (Nat × Snap)) (m : Snap) :
    keysOf (upsert st m) =
      if m.workerId ∈ keysOf st then keysOf st
      else keysOf st ++ [m.workerId] := by
  induction st with
  | nil => simp [upsert, keysOf]
  | cons e rest ih =>
    obtain ⟨k, v⟩ := e
    by_cases hk : k = m.workerId
    · simp [upsert, keysOf, hk]
    · have hmk : m.workerId ≠ k := Ne.symm hk
      simp only [upsert, if_neg hk, keysOf, List.map_cons, List.mem_cons] at ih ⊢
      rw [ih]
      by_cases hm : m.workerId ∈ List.map Prod.fst rest
      · simp [hm, hmk]
      · simp [hm, hmk]

theorem keysOf_upsert_nodup (st : List (Nat × Snap)) (m : Snap)
    (h : (keysOf st).Nodup) : (keysOf (upsert st m)).Nodup := by
  rw [keysOf_upsert]
  by_cases hm : m.workerId ∈ keysOf st
  · simpa [hm] using h
  · rw [if_neg hm, List.nodup_append]
    refine ⟨h, List.nodup_singleton _, ?_⟩
    intro a ha hb
    rw [List.mem_singleton] at hb
    exact hm (hb ▸ ha)

theorem runAgg_append (ms : List Snap) (m : Snap) :
    runAgg (ms ++ [m]) = upsert (runAgg ms) m := by
  simp [runAgg, List.foldl_append]

theorem latestSnap_append (ms : List Snap) (m : Snap) (w : Nat) :
    latestSnap (ms ++ [m]) w =
      if m.workerId = w then some m else latestSnap ms w := by
  unfold latestSnap
  rw [List.filter_append]
  by_cases h : m.workerId = w
  · simp [h]
  · simp [h]

theorem lookupW_runAgg (ms : List Snap) (w : Nat) :
    lookupW (runAgg ms) w = latestSnap ms w := by
  induction ms using List.reverseRecOn with
  | nil => simp [runAgg, lookupW, latestSnap]
  | append_singleton l m ih =>
    rw [runAgg_append, lookupW_upsert, latestSnap_append, ih]
    by_cases h : w = m.workerId
    · simp [h]
    · simp [h, Ne.symm h]

theorem keysOf_runAgg_nodup (ms : List Snap) : (keysOf (runAgg ms)).Nodup := by
  induction ms using List.reverseRecOn with
  | nil => simp [runAgg, keysOf]
  | append_singleton l m ih =>
    rw [runAgg_append]
    exact keysOf_upsert_nodup _ _ ih

theorem mem_keysOf_iff_lookupW (st : List (Nat × Snap)) (w : Nat) :
    w ∈ keysOf st ↔ lookupW st w ≠ none := by
  induction st with
  | nil => simp [keysOf, lookupW]
  | cons e rest ih =>
    obtain ⟨k, v⟩ := e
    by_cases hk : k = w
    · simp [keysOf, lookupW, hk]
    · simp only [keysOf, List.map_cons, List.mem_cons, lookupW, if_neg hk]
      rw [← ih]
      simp [keysOf, Ne.symm hk]

theorem latestSnap_ne_none_iff (ms : List Snap) (w : Nat) :
    latestSnap ms w ≠ none ↔ w ∈ ms.map Snap.workerId := by
  unfold latestSnap
  rw [Ne, List.getLast?_eq_none_iff, List.filter_eq_nil_iff]
  simp only [beq_iff_eq, List.mem_map, not_forall]
  constructor
  · rintro ⟨m, hm, hne⟩
    exact ⟨m, hm, by simpa using hne⟩
  · rintro ⟨m, hm, hEq⟩
    exact ⟨m, hm, by simp [hEq]⟩

theorem mem_keysOf_runAgg (ms : List Snap) (w : Nat) :
    w ∈ keysOf (runAgg ms) ↔ w ∈ ms.map Snap.workerId := by
  rw [mem_keysOf_iff_lookupW, lookupW_runAgg, latestSnap_ne_none_iff]

theorem sum_entries_eq_sum_keys {M : Type} [AddCommMonoid M] (f : Snap → M)
    (st : List (Nat × Snap)) (h : (keysOf st).Nodup) :
    (st.map (fun e => f e.2)).sum =
      ((keysOf st).map (fun w => ((lookupW st w).map f).getD 0)).sum := by
  induction st with
  | nil => simp [keysOf]
  | cons e rest ih =>
    obtain ⟨k, v⟩ := e
    simp only [keysOf, List.map_cons, List.nodup_cons] at h
    obtain ⟨hk, hrest⟩ := h
    have ih2 := ih (by simpa [keysOf] using hrest)
    simp only [keysOf] at ih2
    have hmap : (List.map Prod.fst rest).map
          (fun w => ((lookupW ((k, v) :: rest) w).map f).getD 0) =
        (List.map Prod.fst rest).map
          (fun w => ((lookupW rest w).map f).getD 0) := by
      refine List.map_congr_left ?_
      intro w hw
      have hne : k ≠ w := fun hEq => hk (by rw [hEq]; exact hw)
      simp [lookupW, hne]
    simp only [keysOf, List.map_cons, List.sum_cons]
    rw [ih2, hmap]
    congr 1
    simp [lookupW]

/-- C4. After any sequence of progress messages, `totalTries` is the sum of
the most recent `tries` of each worker that has reported at least once, and
`totalRate` the sum of their most recent rates — a newer snapshot from the
same worker replaces the previous one.  In particular the snapshots
`{w1: tries=100, rate=10}`, then `{w1: tries=150, rate=12}` and
`{w2: tries=80, rate=8}` yield `totalTries = 230` and `totalRate = 20`. -/
theorem totalTries_totalRate_latest_per_worker :
    (∀ ms : List Snap,
        totalTries (runAgg ms) =
            Finset.sum (reportedWorkers ms) (fun w => latestTries ms w) ∧
          totalRate (runAgg ms) =
            Finset.sum (reportedWorkers ms) (fun w => latestRate ms w)) ∧
      totalTries (runAgg [⟨1, 100, 10⟩, ⟨1, 150, 12⟩, ⟨2, 80, 8⟩]) = 230 ∧
      totalRate (runAgg [⟨1, 100, 10⟩, ⟨1, 150, 12⟩, ⟨2, 80, 8⟩]) = 20 := by
  refine ⟨?_, by decide, by norm_num [totalRate, runAgg, upsert, List.foldl]⟩
  intro ms
  have hkeys : (keysOf (runAgg ms)).toFinset = reportedWorkers ms := by
    ext w
    simp [reportedWorkers, mem_keysOf_runAgg, List.mem_toFinset]
  constructor
  · rw [totalTries, sum_entries_eq_sum_keys Snap.tries _ (keysOf_runAgg_nodup ms)]
    rw [← List.sum_toFinset _ (keysOf_runAgg_nodup ms), hkeys]
    refine Finset.sum_congr rfl ?_
    intro w _
    rw [latestTries, lookupW_runAgg]
  · rw [totalRate, sum_entries_eq_sum_keys Snap.rate _ (keysOf_runAgg_nodup ms)]
    rw [← List.sum_toFinset _ (keysOf_runAgg_nodup ms), hkeys]
    refine Finset.sum_congr rfl ?_
    intro w _
    rw [latestRate, lookupW_runAgg]

/-- Observable outcome of a worker processing a stream of sampled candidates
(lines 275–301): the try counter, the addresses that were actually derived,
the match (if any) together with the try count at that moment, and the
number of error events surfaced. -/
structure WorkerRun (A : Type) where
  tries : Nat
  derived : List A
  found : Option (A × Nat)
  errors : Nat
deriving DecidableEq

/-- The body of the batch loop, applied to a stream of sampled candidates:
`if (!secp256k1.privateKeyVerify(buf)) continue;` — an invalid candidate is
skipped with no derivation, no try increment, and no error — otherwise the
address is derived, `tries++`, and the matcher is evaluated; on a match the
worker records the result and returns. -/
def runCandidates {K A : Type} (valid : K → Bool) (derive : K → A)
    (isMatch : A → Bool) : List K → Nat → WorkerRun A
  | [], t => ⟨t, [], none, 0⟩
  | c :: cs, t =>
    if valid c then
      let a := derive c
      if isMatch a then ⟨t + 1, [a], some (a, t + 1), 0⟩
      else
        let r := runCandidates valid derive isMatch cs (t + 1)
        ⟨r.tries, a :: r.derived, r.found, r.errors⟩
    else
      runCandidates valid derive isMatch cs t

/-- C5. A candidate that fails the key-validity predicate is silently
skipped: over any candidate stream none of whose valid candidates matches,
the worker surfaces no error, derives addresses exactly for the valid
candidates, and its try counter grows by exactly the number of valid
candidates — invalid ones are not counted. -/
theorem runCandidates_skips_invalid {K A : Type} (valid : K → Bool)
    (derive : K → A) (isMatch : A → Bool) (cs : List K) (t : Nat)
    (h : ∀ c ∈ cs, valid c = true → isMatch (derive c) = false) :
    runCandidates valid derive isMatch cs t =
      ⟨t + (cs.filter valid).length, (cs.filter valid).map derive,
        none, 0⟩ := by
  induction cs generalizing t with
  | nil => simp [runCandidates]
  | cons c cs ih =>
    by_cases hv : valid c = true
    · have hm : isMatch (derive c) = false := h c (List.mem_cons_self c cs) hv
      rw [runCandidates, if_pos hv]
      simp only [hm, if_neg Bool.false_ne_true]
      rw [ih (t + 1) (fun x hx => h x (List.mem_cons_of_mem c hx))]
      simp [List.filter_cons, hv, Nat.add_comm, Nat.add_assoc, Nat.add_left_comm]
    · rw [runCandidates, if_neg hv]
      rw [ih t (fun x hx => h x (List.mem_cons_of_mem c hx))]
      simp [List.filter_cons, hv]

/-- Witness for C5: a stream with two valid and two invalid candidates and a
never-matching matcher counts exactly the two valid ones. -/
theorem runCandidates_skips_invalid_witness :
    (∀ c ∈ [0, 1, 2, 3], (fun n : Nat => n % 2 == 0) c = true →
        (fun _ : Nat => false) ((fun n : Nat => n * 10) c) = false) ∧
      runCandidates (fun n : Nat => n % 2 == 0) (fun n : Nat => n * 10)
          (fun _ : Nat => false) [0, 1, 2, 3] 5 =
        ⟨7, [0, 20], none, 0⟩ :=
  ⟨by decide,
    by
      rw [runCandidates_skips_invalid (fun n : Nat => n % 2 == 0)
        (fun n : Nat => n * 10) (fun _ : Nat => false) [0, 1, 2, 3] 5
        (by decide)]
      decide⟩

/-- A worker's progress-reporting state: the try counter and the try counts
at which a `progress` message was posted. -/
structure ReportState where
  tries : Nat
  reports : List Nat
deriving DecidableEq

/-- One iteration of the worker's outer `while` loop on the path where every
candidate of the 2000-candidate batch (`BATCH_SIZE = 2000`) is valid and no
match is found: the batch adds 2000 tries, and afterwards the worker posts a
`progress` message exactly when `tries % 10000 === 0`. -/
def progressStep (st : ReportState) : ReportState :=
  let t := st.tries + 2000
  if t % 10000 == 0 then ⟨t, st.reports ++ [t]⟩ else ⟨t, st.reports⟩

/-- Iterating the worker's outer loop a given number of times, in execution
order. -/
def runLoop : Nat → ReportState → ReportState
  | 0, st => st
  | n + 1, st => runLoop n (progressStep st)

/-- Modelled from the spec: the tiered reporting interval the claim asserts
(K = 2000 below 10000 tries, K = 10000 below 100000, K = 25000 beyond). -/
def tieredK (t : Nat) : Nat :=
  if t < 10000 then 2000 else if t < 100000 then 10000 else 25000

/-- Modelled from the spec: under the claimed schedule a worker at try count
`t > 0` emits a snapshot whenever `t` is a multiple of the current tier. -/
def tieredReports (t : Nat) : Bool := t % tieredK t == 0

/-- C6, counterexample. The claimed tiered schedule mandates a snapshot at
2000 tries (K = 2000 there), but after its first batch — 2000 tries — the
worker has posted no progress message at all: reporting is driven by the
fixed test `tries % 10000 === 0`, not by a tiered interval. -/
theorem progress_not_tiered_counterexample :
    tieredReports 2000 = true ∧ (runLoop 1 ⟨0, []⟩).reports = [] := by
  decide

theorem runLoop_reports_general (n j : Nat) (rs : List Nat) :
    (runLoop n ⟨2000 * j, rs⟩).reports =
      rs ++ (((List.range n).map (fun k => 2000 * (j + k + 1))).filter
        (fun t => t % 10000 == 0)) := by
  induction n generalizing j rs with
  | zero => simp [runLoop]
  | succ n ih =>
    have hstep : progressStep ⟨2000 * j, rs⟩ =
        ⟨2000 * (j + 1),
          if 2000 * (j + 1) % 10000 == 0 then rs ++ [2000 * (j + 1)] else rs⟩ := by
      unfold progressStep
      have harith : 2000 * j + 2000 = 2000 * (j + 1) := by ring
      rw [harith]
      by_cases hmod : 2000 * (j + 1) % 10000 == 0
      · simp [hmod]
      · simp [hmod]
    rw [runLoop, hstep]
    by_cases hmod : 2000 * (j + 1) % 10000 == 0
    · rw [if_pos hmod, ih (j + 1)]
      rw [List.range_succ_eq_map]
      simp only [List.map_cons, List.map_map, List.filter_cons]
      have h0 : 2000 * (j + 0 + 1) = 2000 * (j + 1) := by ring
      rw [h0, hmod]
      have hfun : ((fun k => 2000 * (j + k + 1)) ∘ Nat.succ) =
          (fun k => 2000 * (j + 1 + k + 1)) := by
        funext k
        simp [Function.comp]
        ring
      rw [hfun, List.append_assoc]
      rfl
    · rw [if_neg hmod, ih (j + 1)]
      rw [List.range_succ_eq_map]
      simp only [List.map_cons, List.map_map, List.filter_cons]
      have h0 : 2000 * (j + 0 + 1) = 2000 * (j + 1) := by ring
      rw [h0]
      rw [Bool.not_eq_true] at hmod
      rw [hmod]
      have hfun : ((fun k => 2000 * (j + k + 1)) ∘ Nat.succ) =
          (fun k => 2000 * (j + 1 + k + 1)) := by
        funext k
        simp [Function.comp]
        ring
      rw [hfun]
      simp

/-- C6, amended. A worker checks after each 2000-candidate batch and emits a
ProgressSnapshot exactly when its accumulated try count is a multiple of
10000: over any number of batches, the posted snapshots are precisely the
multiples of 10000 among the running try counts 2000, 4000, 6000, … — the
interval is fixed, not a tiered schedule. -/
theorem runLoop_reports_every_10000 (n : Nat) :
    (runLoop n ⟨0, []⟩).reports =
      ((List.range n).map (fun k => 2000 * (k + 1))).filter
        (fun t => t % 10000 == 0) := by
  have h := runLoop_reports_general n 0 []
  simp only [Nat.mul_zero, List.nil_append, Nat.zero_add] at h
  exact h

/-- A JavaScript number where the finite/Infinity/NaN distinction matters;
finite values are modelled as exact rationals. -/
inductive JSNum where
  | fin (q : ℚ)
  | inf
  | nan
deriving DecidableEq

/-- Whether a JavaScript number is finite. -/
def JSNum.isFinite : JSNum → Bool
  | .fin _ => true
  | _ => false

/-- JavaScript division of non-negative numbers: `x / 0` is `Infinity` for
`x > 0` and `NaN` for `x = 0`; otherwise the exact quotient. -/
def jsDiv (a b : ℚ) : JSNum :=
  if b = 0 then (if a = 0 then .nan else .inf) else .fin (a / b)

/-- The rate a worker emits in its `found` message (lines 288–289):
`elapsed = (Date.now() - start) / 1000; rate = tries / elapsed` — there is
no branch guarding the division. -/
def matchRate (tries elapsedMs : Nat) : JSNum :=
  jsDiv (tries : ℚ) ((elapsedMs : ℚ) / 1000)

/-- C7, counterexample. A match found with 1 try after 0 elapsed
milliseconds is emitted with rate `Infinity`: the claimed division-by-zero
guard does not exist, and the emitted rate is not a finite number. -/
theorem matchRate_not_guarded_counterexample :
    (matchRate 1 0).isFinite = false ∧ matchRate 1 0 = JSNum.inf := by
  constructor
  · simp [matchRate, jsDiv, JSNum.isFinite]
  · simp [matchRate, jsDiv]

/-- C7, amended. The emitted rate is `tries / elapsedSeconds` computed with
no zero-elapsed guard: it is the finite value `tries * 1000 / elapsedMs`
whenever the elapsed time is positive, but it is `Infinity` whenever a match
(which implies at least one try) is found at zero elapsed time. -/
theorem matchRate_unguarded (tries elapsedMs : Nat) :
    (0 < elapsedMs →
        matchRate tries elapsedMs = JSNum.fin ((tries : ℚ) * 1000 / elapsedMs)) ∧
      (0 < tries → matchRate tries 0 = JSNum.inf) := by
  constructor
  · intro h
    have hne : ((elapsedMs : ℚ) / 1000) ≠ 0 := by
      have : (elapsedMs : ℚ) ≠ 0 := by
        exact_mod_cast Nat.pos_iff_ne_zero.mp h
      positivity
    rw [matchRate, jsDiv, if_neg hne]
    congr 1
    field_simp
  · intro h
    have hne : ((tries : ℚ)) ≠ 0 := by
      exact_mod_cast Nat.pos_iff_ne_zero.mp h
    simp [matchRate, jsDiv, hne]

/-- Witness for the amended C7: 5 tries in 100 ms gives the finite rate 50,
and 5 tries in 0 ms gives `Infinity`. -/
theorem matchRate_unguarded_witness :
    0 < 100 ∧ matchRate 5 100 = JSNum.fin 50 ∧ matchRate 5 0 = JSNum.inf :=
  ⟨by decide,
    by
      have h := (matchRate_unguarded 5 100).1 (by decide)
      rw [h]
      norm_num,
    (matchRate_unguarded 5 0).2 (by decide)⟩

/-- The ways the main thread terminates the process. -/
inductive TermCause where
  | completed
  | cancelled
  | validationFailure
  | helpRequested
deriving DecidableEq

/-- The exit codes of the main thread: `process.exit(0)` in the completion
shutdown (line 194), `process.exit(0)` in the SIGINT handler (line 246),
`process.exit(1)` after a validation error (line 128), and `process.exit(0)`
for `--help` (line 91). -/
def exitCode : TermCause → Nat
  | .completed => 0
  | .cancelled => 0
  | .validationFailure => 1
  | .helpRequested => 0

/-- C8, counterexample. User-initiated cancellation exits with code 0 — the
same code as reaching the requested count and not a distinct non-zero
code, contrary to the claim. -/
theorem exitCode_cancelled_counterexample :
    exitCode TermCause.cancelled = 0 ∧
      exitCode TermCause.cancelled = exitCode TermCause.completed := by
  decide

/-- C8, amended. The exit code is 0 when termination is due to reaching the
requested count, 0 (not distinct) on user-initiated cancellation, and the
non-zero code 1 for a validation failure before the search starts. -/
theorem exitCode_values :
    exitCode TermCause.completed = 0 ∧ exitCode TermCause.cancelled = 0 ∧
      exitCode TermCause.validationFailure = 1 := by
  decide

/-- The hex digit character for a nibble, as produced by
`Buffer.toString('hex')`: `0`–`9` then lowercase `a`–`f`. -/
def hexDigitChar (n : Nat) : Char :=
  if n < 10 then Char.ofNat (48 + n) else Char.ofNat (87 + n)

/-- The two lowercase hex characters encoding one byte. -/
def byteToHexChars (b : Nat) : List Char :=
  [hexDigitChar (b / 16), hexDigitChar (b % 16)]

/-- Lowercase hex encoding of a byte sequence (`Buffer.toString('hex')`). -/
def bytesToHexChars (bs : List Nat) : List Char :=
  (bs.map byteToHexChars).flatten

/-- The character class of lowercase hexadecimal digits. -/
def isLowerHexChar (c : Char) : Bool :=
  (decide ('0' ≤ c) && decide (c ≤ '9')) || (decide ('a' ≤ c) && decide (c ≤ 'f'))

/-- Translation of `generateVanityAddress(privateKeyBuffer)`, with the two cryptographic
collaborators abstract: `pkc` is `secp256k1.publicKeyCreate(·, false)` and
`kec` is `keccak256.arrayBuffer`.  The code takes the uncompressed public
key, drops its leading `0x04` byte (`publicKey.slice(1)`), hashes it, keeps
the last 20 bytes of the hash (`slice(-20)`), and returns
`'0x' + hex(addressBytes)` and `'0x' + hex(privateKeyBuffer)`. -/
def generateVanityAddress (pkc kec : List Nat → List Nat)
    (privateKeyBuffer : List Nat) : List Char × List Char :=
  let publicKey := pkc privateKeyBuffer
  let publicKeyBytes := publicKey.drop 1
  let hash := kec publicKeyBytes
  let addressBytes := hash.drop (hash.length - 20)
  ('0' :: 'x' :: bytesToHexChars addressBytes,
    '0' :: 'x' :: bytesToHexChars privateKeyBuffer)

theorem bytesToHexChars_length (bs : List Nat) :
    (bytesToHexChars bs).length = 2 * bs.length := by
  induction bs with
  | nil => simp [bytesToHexChars]
  | cons b bs ih =>
    simp only [bytesToHexChars, List.map_cons, List.flatten_cons,
      List.length_append] at ih ⊢
    rw [ih]
    simp [byteToHexChars]
    ring

theorem hexDigitChar_lower (n : Nat) (h : n < 16) :
    isLowerHexChar (hexDigitChar n) = true := by
  interval_cases n <;> decide

theorem bytesToHexChars_lower (bs : List Nat) (h : ∀ b ∈ bs, b < 256) :
    ∀ c ∈ bytesToHexChars bs, isLowerHexChar c = true := by
  intro c hc
  simp only [bytesToHexChars, List.mem_flatten, List.mem_map] at hc
  obtain ⟨l, ⟨b, hb, rfl⟩, hcl⟩ := hc
  have hb256 : b < 256 := h b hb
  have h1 : b / 16 < 16 := Nat.div_lt_of_lt_mul (by omega)
  have h2 : b % 16 < 16 := Nat.mod_lt _ (by omega)
  simp only [byteToHexChars, List.mem_cons, List.mem_singleton] at hcl
  rcases hcl with rfl | rfl | h
  · exact hexDigitChar_lower _ h1
  · exact hexDigitChar_lower _ h2
  · cases h

/-- C9. For every 32-byte private-key buffer and collaborators returning a
65-byte uncompressed public key and a 32-byte hash, the returned address is
`0x` followed by exactly 40 lowercase hex characters encoding the last 20
bytes of the hash of the 64-byte public key without its leading prefix
byte, and the returned private key is `0x` followed by the 64-character
lowercase hex encoding of the input buffer. -/
theorem generateVanityAddress_format (pkc kec : List Nat → List Nat)
    (pk : List Nat) (hpkLen : pk.length = 32) (hpkByte : ∀ b ∈ pk, b < 256)
    (hpubLen : (pkc pk).length = 65)
    (hhashLen : (kec ((pkc pk).drop 1)).length = 32)
    (hhashByte : ∀ b ∈ kec ((pkc pk).drop 1), b < 256) :
    ((pkc pk).drop 1).length = 64 ∧
      (generateVanityAddress pkc kec pk).1 =
        '0' :: 'x' :: bytesToHexChars ((kec ((pkc pk).drop 1)).drop 12) ∧
      ((generateVanityAddress pkc kec pk).1.drop 2).length = 40 ∧
      (∀ c ∈ (generateVanityAddress pkc kec pk).1.drop 2,
        isLowerHexChar c = true) ∧
      (generateVanityAddress pkc kec pk).2 =
        '0' :: 'x' :: bytesToHexChars pk ∧
      ((generateVanityAddress pkc kec pk).2.drop 2).length = 64 ∧
      (∀ c ∈ (generateVanityAddress pkc kec pk).2.drop 2,
        isLowerHexChar c = true) := by
  have hdrop : (kec ((pkc pk).drop 1)).length - 20 = 12 := by
    rw [hhashLen]
  have haddr : (generateVanityAddress pkc kec pk).1 =
      '0' :: 'x' :: bytesToHexChars ((kec ((pkc pk).drop 1)).drop 12) := by
    show '0' :: 'x' :: bytesToHexChars
        ((kec ((pkc pk).drop 1)).drop ((kec ((pkc pk).drop 1)).length - 20)) = _
    rw [hdrop]
  have hpriv : (generateVanityAddress pkc kec pk).2 =
      '0' :: 'x' :: bytesToHexChars pk := rfl
  have hdropLen : ((kec ((pkc pk).drop 1)).drop 12).length = 20 := by
    rw [List.length_drop, hhashLen]
  refine ⟨?_, haddr, ?_, ?_, hpriv, ?_, ?_⟩
  · rw [List.length_drop, hpubLen]
  · rw [haddr]
    simp only [List.drop_succ_cons, List.drop_zero]
    rw [bytesToHexChars_length, hdropLen]
  · rw [haddr]
    simp only [List.drop_succ_cons, List.drop_zero]
    exact bytesToHexChars_lower _
      (fun b hb => hhashByte b (List.mem_of_mem_drop hb))
  · rw [hpriv]
    simp only [List.drop_succ_cons, List.drop_zero]
    rw [bytesToHexChars_length, hpkLen]
  · rw [hpriv]
    simp only [List.drop_succ_cons, List.drop_zero]
    exact bytesToHexChars_lower _ hpkByte

/-- Witness for C9 with concrete stand-ins for the collaborators: a 32-byte
buffer of `0xff` bytes, a public-key function returning 65 bytes, and a
hash function returning 32 bytes. -/
theorem generateVanityAddress_format_witness :
    (List.replicate 32 255).length = 32 ∧
      (((fun _ => List.replicate 65 4) : List Nat → List Nat)
            (List.replicate 32 255)).length = 65 ∧
      (((fun _ => List.replicate 65 4) (List.replicate 32 255) :
          List Nat).drop 1).length = 64 ∧
      (generateVanityAddress (fun _ => List.replicate 65 4)
          (fun _ => List.replicate 32 200) (List.replicate 32 255)).1 =
        '0' :: 'x' :: bytesToHexChars
          (((fun _ => List.replicate 32 200 : List Nat → List Nat)
              ((List.replicate 65 4).drop 1)).drop 12) ∧
      ((generateVanityAddress (fun _ => List.replicate 65 4)
          (fun _ => List.replicate 32 200)
          (List.replicate 32 255)).2.drop 2).length = 64 :=
  ⟨by decide, by decide,
    (generateVanityAddress_format (fun _ => List.replicate 65 4)
      (fun _ => List.replicate 32 200) (List.replicate 32 255)
      (by decide) (by decide) (by decide) (by decide) (by decide)).1,
    (generateVanityAddress_format (fun _ => List.replicate 65 4)
      (fun _ => List.replicate 32 200) (List.replicate 32 255)
      (by decide) (by decide) (by decide) (by decide) (by decide)).2.1,
    (generateVanityAddress_format (fun _ => List.replicate 65 4)
      (fun _ => List.replicate 32 200) (List.replicate 32 255)
      (by decide) (by decide) (by decide) (by decide) (by decide)).2.2.2.2.2.1⟩

/-- A JavaScript value as it flows out of `getFlagValue`: either a number
or a string. -/
inductive JSVal where
  | num (n : JSNum)
  | str (s : List Char)
deriving DecidableEq

/-- Decimal digit test. -/
def isDigitChar (c : Char) : Bool := decide ('0' ≤ c) && decide (c ≤ '9')

/-- Parse a non-negative decimal integer literal; `none` models NaN.  This
covers the strings relevant here (flag values such as `"abc"` or `"5"`). -/
def parseDecimal (s : List Char) : Option Nat :=
  if s ≠ [] && s.all isDigitChar then
    some (s.foldl (fun acc c => acc * 10 + (c.toNat - 48)) 0)
  else
    none

/-- JavaScript `Number()` coercion on the modelled values: a non-numeric
string coerces to NaN, the empty string to 0. -/
def toNumber : JSVal → JSNum
  | .num n => n
  | .str s =>
    if s = [] then .fin 0
    else
      match parseDecimal s with
      | some v => .fin v
      | none => .nan

/-- JavaScript's global `isNaN`, which coerces its argument first. -/
def jsIsNaN (v : JSVal) : Bool :=
  match toNumber v with
  | .nan => true
  | _ => false

/-- JavaScript `parseInt(s, 10)` on the modelled strings. -/
def jsParseInt (s : List Char) : JSNum :=
  match parseDecimal s with
  | some v => .fin v
  | none => .nan

/-- JavaScript `a <= b` with number coercion: any comparison involving NaN
is false. -/
def jsLE (a b : JSVal) : Bool :=
  match toNumber a, toNumber b with
  | .nan, _ => false
  | _, .nan => false
  | .fin x, .fin y => decide (x ≤ y)
  | .fin _, .inf => true
  | .inf, .fin _ => false
  | .inf, .inf => true

/-- JavaScript `a >= b` with number coercion: any comparison involving NaN
is false. -/
def jsGE (a b : JSVal) : Bool :=
  match toNumber a, toNumber b with
  | .nan, _ => false
  | _, .nan => false
  | .fin x, .fin y => decide (y ≤ x)
  | .fin _, .inf => false
  | .inf, .fin _ => true
  | .inf, .inf => true

/-- Translation of `getFlagValue(flagName, defaultValue)` for a numeric default, given that
the flag is present with value string `v`:
`(typeof defaultValue === 'number' && !isNaN(val)) ? parseInt(val, 10) : val`.
With a numeric default this returns `parseInt(v, 10)` when `v` coerces to a
number and the raw string `v` otherwise. -/
def getFlagValue (v : List Char) (dflt : Nat) : JSVal :=
  if !(jsIsNaN (.str v)) then .num (jsParseInt v) else .str v

/-- The startup validation of the count flag: `if (walletCount <= 0) throw`.
Returns `true` when the validation rejects the value. -/
def countRejected (walletCount : JSVal) : Bool :=
  jsLE walletCount (.num (.fin 0))

/-- The completion test of the found handler: `foundCount >= walletCount`. -/
def completionReached (foundCount : Nat) (walletCount : JSVal) : Bool :=
  jsGE (.num (.fin foundCount)) walletCount

/-- C10. On the input `--count=abc`, `getFlagValue` returns the raw string
rather than a number, the `walletCount <= 0` check does not reject it (so no
validation error is raised), and the completion condition
`foundCount >= walletCount` is false for every found count, so it can never
become true. -/
theorem count_abc_validation_hole :
    getFlagValue "abc".toList 1 = JSVal.str "abc".toList ∧
      countRejected (JSVal.str "abc".toList) = false ∧
      (∀ foundCount : Nat,
        completionReached foundCount (JSVal.str "abc".toList) = false) := by
  refine ⟨by decide, by decide, ?_⟩
  intro foundCount
  have habc : toNumber (JSVal.str "abc".toList) = JSNum.nan := by decide
  simp only [completionReached, jsGE]
  rw [habc]
  rfl

end Vanity
